import Mathlib

/-!
Verification of the derived-metrics core of the `star-proj` repository
(`krm-experiment/analysis/analysis.py` and `pcm-exp/analysis/analysis.py`).

Shallow embedding conventions:
* Python floats are modelled as exact rationals (`ℚ`).  Every concrete input
  used in a theorem below is exactly representable in binary floating point
  and small enough that the Python float computation agrees with the exact
  rational one.
* A pandas column of possibly non-numeric entries is modelled as
  `Option ℚ` per row (`none` = `NaN` after `pd.to_numeric(..., errors="coerce")`).
* A missing CSV file or empty DataFrame is the empty list.
* `timestamp` values are seconds (the Python code only ever uses
  `Timestamp` differences via `.total_seconds()`).
-/

namespace Autoscale

/-! ### Numeric helpers (Python `int`, `round`, pandas `mean`/`std`) -/

/-- Python `int()` applied to a (real-valued) number: truncation toward zero. -/
def pyTrunc (q : ℚ) : ℤ := if 0 ≤ q then ⌊q⌋ else -⌊-q⌋

/-- Python `round()` to an integer: round half to even (banker's rounding). -/
def roundHalfEven (q : ℚ) : ℤ :=
  if q - ⌊q⌋ < 1/2 then ⌊q⌋
  else if 1/2 < q - ⌊q⌋ then ⌊q⌋ + 1
  else if ⌊q⌋ % 2 = 0 then ⌊q⌋ else ⌊q⌋ + 1

/-- Python `round(x, 1)`. -/
def roundTo1 (q : ℚ) : ℚ := (roundHalfEven (q * 10) : ℚ) / 10

/-- Python `round(x, 2)`. -/
def roundTo2 (q : ℚ) : ℚ := (roundHalfEven (q * 100) : ℚ) / 100

/-- pandas `Series.mean()`: `none` models the `NaN` produced on an empty
series. -/
def mean (l : List ℚ) : Option ℚ :=
  match l with
  | [] => none
  | x :: xs => some ((x :: xs).sum / (x :: xs).length)

/-- pandas `Series.max()` of a nonempty numeric series. -/
def listMax (x : ℚ) (xs : List ℚ) : ℚ := xs.foldl max x

/-- pandas `Series.var()` with the default `ddof = 1` (the square of
`Series.std()`).  `none` models the `NaN` returned on fewer than two
samples.  The reported `pod_cpu_std_dev` is `√·` of this value rounded to
one decimal; since the square root is irrational we keep the dispersion
statistic at the variance level, which has the same definedness and is
computed over exactly the same samples. -/
def sampleVar (l : List ℤ) : Option ℚ :=
  if l.length ≤ 1 then none
  else
    some (((l.map (fun x => ((x : ℚ) - (l.map (fun y => (y : ℚ))).sum / l.length)^2)).sum)
      / ((l.length : ℚ) - 1))

/-! ### CPU Quantity Normalizer (`parse_cpu` in both analysis files)

A raw CPU string is represented by how Python's parses classify it:
`milli n` stands for a (stripped) string ending in `m` whose remainder is
an integer literal `n` (so `int(val[:-1])` succeeds with `n`); `dec q`
stands for a string without the `m` suffix that `float()` parses to the
value `q` (exact-rational idealization of the float value);
`malformedMilli` stands for a string ending in `m` whose remainder is not
an integer literal (e.g. `"1.5m"`), so `int(val[:-1])` raises
`ValueError`; `malformedDec` stands for a string without the `m` suffix
that `float()` rejects.  The distinction between the two malformed kinds
matters in the pcm-exp script, whose `try/except` covers only the decimal
branch. -/

inductive RawCpu where
  | milli (n : ℤ)
  | dec (q : ℚ)
  | malformedMilli
  | malformedDec
  deriving DecidableEq

/-- `parse_cpu` of the krm-experiment script (and the shared numeric
behavior of both scripts on well-formed strings): strip the `m` suffix and
read an integer, otherwise read a decimal and take
`int(float(val) * 1000)`.  krm has no error handling inside the function,
so `none` is an uncaught `ValueError` of either kind. -/
def parse_cpu (v : RawCpu) : Option ℤ :=
  match v with
  | .milli n => some n
  | .dec q => some (pyTrunc (q * 1000))
  | .malformedMilli => none
  | .malformedDec => none

/-- `parse_cpu` of the pcm-exp script distinguishes how it fails: the
milli branch `int(val[:-1])` sits outside the `try/except`, so a malformed
milli-suffixed string raises a `ValueError` that escapes the function
(outer `none`), while a malformed plain decimal is caught and returned as
Python `None` (`some none`).  On well-formed input it agrees with
`parse_cpu`. -/
def parse_cpu_pcm (v : RawCpu) : Option (Option ℤ) :=
  match v with
  | .milli n => some (some n)
  | .dec q => some (some (pyTrunc (q * 1000)))
  | .malformedMilli => none
  | .malformedDec => some none

/-- `df_cpu["cpu"].apply(parse_cpu)` in the krm-experiment script: the
first parse failure aborts the whole `apply` (the `ValueError` escapes),
modelled by `none`. -/
def parseAll : List RawCpu → Option (List ℤ)
  | [] => some []
  | x :: rest =>
    match parse_cpu x, parseAll rest with
    | some v, some vs => some (v :: vs)
    | _, _ => none

/-- `pod_cpu_df["cpu"].apply(parse_cpu)` in the pcm-exp script: an escaped
`ValueError` (a `malformedMilli` entry) aborts the whole `apply` (outer
`none`); otherwise the per-element results — values or Python `None` —
are collected. -/
def parseAllPcm : List RawCpu → Option (List (Option ℤ))
  | [] => some []
  | x :: rest =>
    match parse_cpu_pcm x, parseAllPcm rest with
    | some v, some vs => some (v :: vs)
    | _, _ => none

/-- krm-experiment `pod_cpu_std_dev`: `df_cpu["cpu"].apply(parse_cpu)` with no
per-element error handling, wrapped in `try/except` that stores `None`:
one malformed sample makes the whole statistic `None`. -/
def krmPodCpuStdDev (l : List RawCpu) : Option ℚ :=
  match parseAll l with
  | none => none
  | some vs => sampleVar vs

/-- pcm-exp `pod_cpu_std_dev`: `apply(parse_cpu).dropna()` then `std()`,
inside `try/except Exception: pass`.  If some element raises (a
`malformedMilli` entry), the whole `apply` aborts and the key is never
written (`none`); otherwise the per-element `None`s are dropped and the
dispersion is computed over the remaining values. -/
def pcmPodCpuStdDev (l : List RawCpu) : Option ℚ :=
  match parseAllPcm l with
  | none => none
  | some vs => sampleVar (vs.filterMap id)

/-! ### Data model (rows of `hpa_log.csv` and `phases.log`) -/

structure Sample where
  timestamp : ℚ
  currentReplicas : ℤ
  currentCPUUtilizationPercent : Option ℚ
  httpRequestsPerSecond : Option ℚ
  deriving DecidableEq

structure PhaseEvent where
  timestamp : ℚ
  phase : String
  action : String
  deriving DecidableEq

/-- The timestamps of the list are in non-decreasing order. -/
def TimeSorted : List Sample → Prop
  | [] => True
  | [_] => True
  | x :: y :: rest => x.timestamp ≤ y.timestamp ∧ TimeSorted (y :: rest)

instance instDecTimeSorted : (l : List Sample) → Decidable (TimeSorted l)
  | [] => .isTrue trivial
  | [_] => .isTrue trivial
  | x :: y :: rest =>
    have := instDecTimeSorted (y :: rest)
    decidable_of_iff (x.timestamp ≤ y.timestamp ∧ TimeSorted (y :: rest)) Iff.rfl

/-- Insertion step of the sort modelling `hpa.sort_values("timestamp")`
(order among equal timestamps is unspecified in the source, which uses an
unstable quicksort; every claim below is insensitive to tie order). -/
def insertByTime (x : Sample) : List Sample → List Sample
  | [] => [x]
  | y :: rest => if x.timestamp ≤ y.timestamp then x :: y :: rest else y :: insertByTime x rest

def sortByTime : List Sample → List Sample
  | [] => []
  | x :: rest => insertByTime x (sortByTime rest)

/-! ### Phase/Scale Event Detector -/

/-- `phases[(phases["phase"] == "high") & (phases["action"] == "start")]`. -/
def highStarts (phases : List PhaseEvent) : List PhaseEvent :=
  phases.filter (fun e => e.phase == "high" && e.action == "start")

/-- `hpa[(hpa["timestamp"] > first_high) & (hpa["currentReplicas"] > initial_replicas)].iloc[0]`:
the first sample (in table order) strictly after `fh` whose replica count
exceeds `init`. -/
def firstScaled (fh : ℚ) (init : ℤ) : List Sample → Option Sample
  | [] => none
  | s :: rest =>
    if fh < s.timestamp ∧ init < s.currentReplicas then some s
    else firstScaled fh init rest

/-- `time_to_scale_up_s`. -/
def timeToScaleUp (phases : List PhaseEvent) (hpa : List Sample) : Option ℚ :=
  match highStarts phases, hpa with
  | fh :: _, h0 :: _ =>
    match firstScaled fh.timestamp h0.currentReplicas hpa with
    | some sc => some (sc.timestamp - fh.timestamp)
    | none => none
  | _, _ => none

/-! ### Stabilization Detector

The Python loop over `i in range(1, len(hpa))` with state `stable_start`
becomes a recursion over the list, carrying the previous sample and the
optional plateau start. -/

def stabScan : Option ℚ → Sample → List Sample → Option ℚ
  | _, _, [] => none
  | st, p, c :: rest =>
    if c.currentReplicas = p.currentReplicas then
      if c.timestamp - st.getD p.timestamp ≥ 60 then some (st.getD p.timestamp)
      else stabScan (some (st.getD p.timestamp)) c rest
    else stabScan none c rest

/-- The `stable_start` recorded when the 60-second plateau threshold is
first reached (`stabilized_start_time` in the source), if any. -/
def stabilizedStart (hpa : List Sample) : Option ℚ :=
  match hpa with
  | [] => none
  | p :: rest => stabScan none p rest

/-- `time_to_stabilize_s`: plateau onset minus the anchor (first
`high`/`start` event if one exists, else the first sample's timestamp). -/
def timeToStabilize (phases : List PhaseEvent) (hpa : List Sample) : Option ℚ :=
  match stabilizedStart hpa, hpa with
  | some s, h0 :: _ =>
    some (s - (match highStarts phases with
               | fh :: _ => fh.timestamp
               | [] => h0.timestamp))
  | _, _ => none

/-- `int(hpa["currentReplicas"].max())` over a nonempty table. -/
def maxReplicas (h : Sample) (t : List Sample) : ℤ :=
  t.foldl (fun a s => max a s.currentReplicas) h.currentReplicas

/-! ### Utilization Integrator -/

/-- Samples with timestamp at or after the stabilized start
(`hpa[hpa["timestamp"] >= stabilized_start_time]`). -/
def samplesFrom (s : ℚ) : List Sample → List Sample
  | [] => []
  | x :: rest =>
    if s ≤ x.timestamp then x :: samplesFrom s rest else samplesFrom s rest

/-- `avg_cpu_util`: mean of the numeric utilization values, restricted to
the stabilized window when one was found (`none` conflates the key being
absent with a `NaN` value; no claim distinguishes the two for this
field). -/
def avgCpuUtil (hpa : List Sample) : Option ℚ :=
  let window : List Sample :=
    match stabilizedStart hpa with
    | some s => samplesFrom s hpa
    | none => hpa
  (mean (window.filterMap (fun x => x.currentCPUUtilizationPercent))).map roundTo1

/-- Target CPU utilization, `TARGET_UTIL = 60` in both analysis files. -/
def TARGET_UTIL : ℚ := 60

/-- The accumulation loop of the overshoot/undershoot area: `prev` is
`prev_time`, `acc` is `area`.  A non-numeric utilization adds nothing but
still advances `prev_time`. -/
def overshootLoop : ℚ → ℚ → List Sample → ℚ
  | _, acc, [] => acc
  | prev, acc, x :: rest =>
    overshootLoop x.timestamp
      (match x.currentCPUUtilizationPercent with
       | some u => acc + |u - TARGET_UTIL| * (x.timestamp - prev)
       | none => acc)
      rest

/-- The `area` variable after the loop (before `round(area, 1)`), with
`prev_time` initialized to the first sorted sample's timestamp. -/
def overshootAreaRaw (hpa : List Sample) : ℚ :=
  match sortByTime hpa with
  | [] => 0
  | x :: rest => overshootLoop x.timestamp 0 (x :: rest)

/-! ### Resource Cost Estimator -/

/-- `pod_seconds = int(hpa["currentReplicas"].sum() * 5)`. -/
def podSeconds (hpa : List Sample) : ℤ :=
  (hpa.map (fun s => s.currentReplicas)).sum * 5

/-- Modelled from the spec: the nominal sampling-interval configuration
constant (default 5 s) of the Resource Cost Estimator.  The source
hard-codes the literal `5`; this definition generalizes it so that the
linearity-in-the-constant property can be stated. -/
def podSecondsWith (c : ℤ) (hpa : List Sample) : ℤ :=
  (hpa.map (fun s => s.currentReplicas)).sum * c

/-! ### Throughput Reconciler (pcm-exp only) -/

/-- `avg_http_rps` before the final rounding.  Outer `none` = Python
`None` (the key is never written); `some none` = the `NaN` a mean over an
all-non-numeric Prometheus slice produces (the key is written with `NaN`).
Rank order: dedicated `http_rps.csv` `total_rps` column, then the HPA
custom-metric column, then `prometheus_metrics.csv` rows whose `metric`
equals `"http_requests_rate"`. -/
def avgHttpRps (http_rps : List (Option ℚ)) (hpa : List Sample)
    (prom : List (String × Option ℚ)) : Option (Option ℚ) :=
  match http_rps.filterMap id with
  | v :: vs => some (some ((v :: vs).sum / (v :: vs).length))
  | [] =>
    match hpa.filterMap (fun s => s.httpRequestsPerSecond) with
    | w :: ws => some (some ((w :: ws).sum / (w :: ws).length))
    | [] =>
      match (prom.filter (fun p => p.1 == "http_requests_rate")).map Prod.snd with
      | [] => none
      | ps => some (mean (ps.filterMap id))

/-- `peak_http_rps`: written (inside the rank-1 branch) exactly when the
dedicated series has a numeric value. -/
def peakHttpRps (http_rps : List (Option ℚ)) : Option ℚ :=
  match http_rps.filterMap id with
  | [] => none
  | v :: vs => some (roundTo2 (listMax v vs))

/-! ### Run Summarizer -/

/-- One `DerivedMetrics` record; `none` is an absent key. -/
structure DerivedMetrics where
  time_to_scale_up_s : Option ℚ
  time_to_stabilize_s : Option ℚ
  max_replicas : Option ℤ
  avg_cpu_util : Option ℚ
  avg_http_rps : Option (Option ℚ)
  peak_http_rps : Option ℚ
  overshoot_undershoot_area : Option ℚ
  pod_seconds : Option ℤ
  pod_cpu_std_dev : Option ℚ
  deriving DecidableEq

def emptyMetrics : DerivedMetrics :=
  ⟨none, none, none, none, none, none, none, none, none⟩

/-- `compute_derived_metrics` of `krm-experiment/analysis/analysis.py`.
The `hpa_log` table always carries the `currentReplicas` and
`currentCPUUtilizationPercent` columns in this embedding (a structurally
missing column is an ingestion concern outside the analysed code paths). -/
def compute_derived_metrics_krm (hpa : List Sample) (phases : List PhaseEvent)
    (pod_cpu : List RawCpu) : DerivedMetrics :=
  match hpa, phases with
  | [], _ => emptyMetrics
  | _ :: _, [] => emptyMetrics
  | h :: t, _ :: _ =>
    { time_to_scale_up_s := timeToScaleUp phases (h :: t)
      time_to_stabilize_s := timeToStabilize phases (h :: t)
      max_replicas := some (maxReplicas h t)
      avg_cpu_util := avgCpuUtil (h :: t)
      avg_http_rps := none
      peak_http_rps := none
      overshoot_undershoot_area := some (roundTo1 (overshootAreaRaw (h :: t)))
      pod_seconds := some (podSeconds (h :: t))
      pod_cpu_std_dev := krmPodCpuStdDev pod_cpu }

/-- `compute_derived_metrics` of `pcm-exp/analysis/analysis.py`. -/
def compute_derived_metrics_pcm (hpa : List Sample) (phases : List PhaseEvent)
    (pod_cpu : List RawCpu) (http_rps : List (Option ℚ))
    (prom : List (String × Option ℚ)) : DerivedMetrics :=
  match hpa, phases with
  | [], _ => emptyMetrics
  | _ :: _, [] => emptyMetrics
  | h :: t, _ :: _ =>
    { time_to_scale_up_s := timeToScaleUp phases (h :: t)
      time_to_stabilize_s := timeToStabilize phases (h :: t)
      max_replicas := some (maxReplicas h t)
      avg_cpu_util := avgCpuUtil (h :: t)
      avg_http_rps := (avgHttpRps http_rps (h :: t) prom).map (Option.map roundTo2)
      peak_http_rps := peakHttpRps http_rps
      overshoot_undershoot_area := some (roundTo1 (overshootAreaRaw (h :: t)))
      pod_seconds := some (podSeconds (h :: t))
      pod_cpu_std_dev := pcmPodCpuStdDev pod_cpu }

/-! ### Specification-side predicates for the Stabilization Detector -/

/-- `ConstReach s r l`: some prefix of `l` consists of samples with
replica count `r` and contains a sample whose timestamp is at least
`s + 60` — i.e. the plateau that started at time `s` with replica count
`r` is confirmed inside `l`. -/
def ConstReach (s : ℚ) (r : ℤ) : List Sample → Prop
  | [] => False
  | x :: rest => x.currentReplicas = r ∧ (60 ≤ x.timestamp - s ∨ ConstReach s r rest)

instance instDecConstReach (s : ℚ) (r : ℤ) : (l : List Sample) → Decidable (ConstReach s r l)
  | [] => .isFalse (fun h => h)
  | x :: rest =>
    have := instDecConstReach s r rest
    decidable_of_iff (x.currentReplicas = r ∧ (60 ≤ x.timestamp - s ∨ ConstReach s r rest))
      Iff.rfl

/-- `Qualify l`: some sample of `l` starts a contiguous constant-replica
stretch spanning at least 60 seconds of elapsed time. -/
def Qualify : List Sample → Prop
  | [] => False
  | x :: rest => ConstReach x.timestamp x.currentReplicas rest ∨ Qualify rest

instance instDecQualify : (l : List Sample) → Decidable (Qualify l)
  | [] => .isFalse (fun h => h)
  | x :: rest =>
    have := instDecQualify rest
    decidable_of_iff (ConstReach x.timestamp x.currentReplicas rest ∨ Qualify rest) Iff.rfl

/-! ### Helper lemmas: sortedness -/

theorem TimeSorted.tail {x : Sample} {l : List Sample} (h : TimeSorted (x :: l)) :
    TimeSorted l := by
  cases l with
  | nil => trivial
  | cons y rest => exact h.2

theorem TimeSorted.head_le {p : Sample} {l : List Sample} (h : TimeSorted (p :: l)) :
    ∀ x ∈ l, p.timestamp ≤ x.timestamp := by
  induction l generalizing p with
  | nil => intro x hx; cases hx
  | cons c rest ih =>
    intro x hx
    rcases List.mem_cons.mp hx with rfl | hx
    · exact h.1
    · exact le_trans h.1 (ih h.2 x hx)

/-- The lower bound `prev ≤ head timestamp` used by the overshoot loop
lemmas (trivially true on the empty list). -/
def headTimeLB (prev : ℚ) : List Sample → Prop
  | [] => True
  | x :: _ => prev ≤ x.timestamp

theorem timeSorted_cons {y : Sample} {l : List Sample}
    (hlb : headTimeLB y.timestamp l) (h : TimeSorted l) : TimeSorted (y :: l) := by
  cases l with
  | nil => trivial
  | cons z rest => exact ⟨hlb, h⟩

theorem TimeSorted.headTimeLB_of_cons {x : Sample} {l : List Sample}
    (h : TimeSorted (x :: l)) : headTimeLB x.timestamp l := by
  cases l with
  | nil => trivial
  | cons y rest => exact h.1

theorem TimeSorted.append_left : ∀ (xs ys : List Sample), TimeSorted (xs ++ ys) → TimeSorted xs
  | [], _, _ => trivial
  | [_], _, _ => trivial
  | _ :: y :: xs, ys, h =>
    ⟨h.1, TimeSorted.append_left (y :: xs) ys h.2⟩

theorem TimeSorted.append_right : ∀ (xs ys : List Sample), TimeSorted (xs ++ ys) → TimeSorted ys
  | [], _, h => h
  | _ :: xs, ys, h => TimeSorted.append_right xs ys h.tail

theorem mem_insertByTime {a x : Sample} : ∀ (l : List Sample),
    (a ∈ insertByTime x l ↔ a = x ∨ a ∈ l)
  | [] => by simp [insertByTime]
  | y :: rest => by
    by_cases hxy : x.timestamp ≤ y.timestamp
    · simp [insertByTime, hxy]
    · simp only [insertByTime, if_neg hxy, List.mem_cons,
        mem_insertByTime rest]
      tauto

theorem mem_sortByTime {a : Sample} : ∀ (l : List Sample), (a ∈ sortByTime l ↔ a ∈ l)
  | [] => Iff.rfl
  | x :: rest => by
    simp only [sortByTime, mem_insertByTime, List.mem_cons, mem_sortByTime rest]

theorem headTimeLB_insertByTime {y x : Sample} {l : List Sample}
    (hyx : y.timestamp ≤ x.timestamp) (hlb : headTimeLB y.timestamp l) :
    headTimeLB y.timestamp (insertByTime x l) := by
  cases l with
  | nil => exact hyx
  | cons z rest =>
    by_cases hxz : x.timestamp ≤ z.timestamp
    · simpa [insertByTime, hxz, headTimeLB] using hyx
    · simpa [insertByTime, hxz, headTimeLB] using hlb

theorem timeSorted_insertByTime (x : Sample) : ∀ {l : List Sample},
    TimeSorted l → TimeSorted (insertByTime x l)
  | [], _ => trivial
  | y :: rest, h => by
    by_cases hxy : x.timestamp ≤ y.timestamp
    · have hres : TimeSorted (x :: y :: rest) := timeSorted_cons hxy h
      simpa [insertByTime, hxy] using hres
    · have hyx : y.timestamp ≤ x.timestamp := le_of_not_le hxy
      simp only [insertByTime, if_neg hxy]
      exact timeSorted_cons
        (headTimeLB_insertByTime hyx h.headTimeLB_of_cons)
        (timeSorted_insertByTime x h.tail)

theorem timeSorted_sortByTime : ∀ (l : List Sample), TimeSorted (sortByTime l)
  | [] => trivial
  | x :: rest => timeSorted_insertByTime x (timeSorted_sortByTime rest)

/-! ### Helper lemmas: the stabilization scan -/

theorem ConstReach.mono : ∀ {l : List Sample} {s s' : ℚ} {r : ℤ}, s ≤ s' →
    ConstReach s' r l → ConstReach s r l
  | x :: rest, s, s', r, hss, h =>
    ⟨h.1, h.2.imp (fun ht => le_trans ht (by linarith)) (ConstReach.mono hss)⟩

/-- Starting the scan with no plateau is the same as starting it with a
plateau that begins at the previous sample's own timestamp. -/
theorem stabScan_none_start (p : Sample) (l : List Sample) :
    stabScan none p l = stabScan (some p.timestamp) p l := by
  cases l with
  | nil => rfl
  | cons c rest => simp [stabScan]

/-- The scan returns `none` exactly when neither the pending plateau (open
since time `s0`) nor any later contiguous constant-replica stretch reaches
the 60-second threshold. -/
theorem stabScan_eq_none_iff : ∀ (l : List Sample) (p : Sample) (s0 : ℚ),
    TimeSorted (p :: l) → s0 ≤ p.timestamp →
    (stabScan (some s0) p l = none ↔
      ¬ ConstReach s0 p.currentReplicas l ∧ ¬ Qualify l)
  | [], p, s0, _, _ => by simp [stabScan, ConstReach, Qualify]
  | c :: rest, p, s0, hsort, hle => by
    have hpc : p.timestamp ≤ c.timestamp := hsort.1
    have hsc : s0 ≤ c.timestamp := le_trans hle hpc
    by_cases hr : c.currentReplicas = p.currentReplicas
    · by_cases hfire : c.timestamp - s0 ≥ 60
      · have hCR : ConstReach s0 p.currentReplicas (c :: rest) := by
          simp only [ConstReach]
          exact ⟨hr, Or.inl hfire⟩
        simp only [stabScan, if_pos hr, Option.getD_some, if_pos hfire]
        constructor
        · intro h; cases h
        · intro h; exact absurd hCR h.1
      · simp only [stabScan, if_pos hr, Option.getD_some, if_neg hfire]
        rw [stabScan_eq_none_iff rest c s0 hsort.tail hsc]
        have hmono : ConstReach c.timestamp p.currentReplicas rest →
            ConstReach s0 p.currentReplicas rest := fun h => h.mono hsc
        have hnofire : ¬ (60 ≤ c.timestamp - s0) := hfire
        simp only [ConstReach, Qualify, hr]
        tauto
    · simp only [stabScan, if_neg hr]
      rw [stabScan_none_start, stabScan_eq_none_iff rest c c.timestamp hsort.tail le_rfl]
      simp only [ConstReach, Qualify]
      tauto

/-- Any plateau onset the scan reports is the start of an actual
qualifying stretch: either the pending one, or one lying inside the
remaining samples. -/
theorem stabScan_some_spec : ∀ (l : List Sample) (p : Sample) (s0 s : ℚ),
    stabScan (some s0) p l = some s →
    (s = s0 ∧ ConstReach s0 p.currentReplicas l)
    ∨ ∃ pre x rest, l = pre ++ x :: rest ∧ s = x.timestamp ∧
        ConstReach x.timestamp x.currentReplicas rest
  | [], _, _, _, h => by cases h
  | c :: rest, p, s0, s, h => by
    by_cases hr : c.currentReplicas = p.currentReplicas
    · by_cases hfire : c.timestamp - s0 ≥ 60
      · simp only [stabScan, if_pos hr, Option.getD_some, if_pos hfire,
          Option.some_inj] at h
        exact Or.inl ⟨h.symm, hr, Or.inl hfire⟩
      · simp only [stabScan, if_pos hr, Option.getD_some, if_neg hfire] at h
        rcases stabScan_some_spec rest c s0 s h with ⟨hs, hcr⟩ | ⟨pre, x, rest', heq, hs, hcr⟩
        · exact Or.inl ⟨hs, hr, Or.inr (by rwa [hr] at hcr)⟩
        · exact Or.inr ⟨c :: pre, x, rest', by rw [heq, List.cons_append], hs, hcr⟩
    · simp only [stabScan, if_neg hr] at h
      rw [stabScan_none_start] at h
      rcases stabScan_some_spec rest c c.timestamp s h with ⟨hs, hcr⟩ | ⟨pre, x, rest', heq, hs, hcr⟩
      · exact Or.inr ⟨[], c, rest, rfl, hs, hcr⟩
      · exact Or.inr ⟨c :: pre, x, rest', by rw [heq, List.cons_append], hs, hcr⟩

/-- The onset the scan reports is the earliest qualifying one: it is at or
before the start of the pending plateau (if that one qualifies) and at or
before every qualifying stretch inside the remaining samples. -/
theorem stabScan_some_le : ∀ (l : List Sample) (p : Sample) (s0 s : ℚ),
    TimeSorted (p :: l) → s0 ≤ p.timestamp →
    stabScan (some s0) p l = some s →
    (ConstReach s0 p.currentReplicas l → s ≤ s0) ∧
    ∀ pre x rest, l = pre ++ x :: rest →
      ConstReach x.timestamp x.currentReplicas rest → s ≤ x.timestamp
  | [], _, _, _, _, _, h => by cases h
  | c :: rest, p, s0, s, hsort, hle, h => by
    have hpc : p.timestamp ≤ c.timestamp := hsort.1
    have hsc : s0 ≤ c.timestamp := le_trans hle hpc
    by_cases hr : c.currentReplicas = p.currentReplicas
    · by_cases hfire : c.timestamp - s0 ≥ 60
      · simp only [stabScan, if_pos hr, Option.getD_some, if_pos hfire,
          Option.some_inj] at h
        subst h
        refine ⟨fun _ => le_rfl, fun pre x rest' heq _ => ?_⟩
        have hx : x ∈ c :: rest := by
          rw [heq]; exact List.mem_append_right pre (List.mem_cons_self x rest')
        rcases List.mem_cons.mp hx with rfl | hx
        · exact hsc
        · exact le_trans hle (hsort.head_le x (List.mem_cons_of_mem c hx))
      · simp only [stabScan, if_pos hr, Option.getD_some, if_neg hfire] at h
        obtain ⟨ih1, ih2⟩ := stabScan_some_le rest c s0 s hsort.tail hsc h
        refine ⟨fun hcr => ?_, fun pre x rest' heq hcr => ?_⟩
        · rcases hcr.2 with h60 | hcr'
          · exact absurd h60 hfire
          · exact ih1 (by rwa [← hr] at hcr')
        · cases pre with
          | nil =>
            obtain ⟨rfl, rfl⟩ : c = x ∧ rest = rest' := by
              constructor <;> injection heq
            exact le_trans (ih1 (hcr.mono hsc)) hsc
          | cons hd pre' =>
            have heq' : rest = pre' ++ x :: rest' := by injection heq
            exact ih2 pre' x rest' heq' hcr
    · simp only [stabScan, if_neg hr] at h
      rw [stabScan_none_start] at h
      obtain ⟨ih1, ih2⟩ := stabScan_some_le rest c c.timestamp s hsort.tail le_rfl h
      refine ⟨fun hcr => absurd hcr.1 hr, fun pre x rest' heq hcr => ?_⟩
      cases pre with
      | nil =>
        obtain ⟨rfl, rfl⟩ : c = x ∧ rest = rest' := by
          constructor <;> injection heq
        exact ih1 hcr
      | cons hd pre' =>
        have heq' : rest = pre' ++ x :: rest' := by injection heq
        exact ih2 pre' x rest' heq' hcr

/-- `stabilized_start_time` is `None` exactly when no contiguous
constant-replica stretch spans at least 60 seconds. -/
theorem stabilizedStart_eq_none_iff {hpa : List Sample} (hs : TimeSorted hpa) :
    stabilizedStart hpa = none ↔ ¬ Qualify hpa := by
  cases hpa with
  | nil => simp [stabilizedStart, Qualify]
  | cons p l =>
    rw [stabilizedStart, stabScan_none_start,
      stabScan_eq_none_iff l p p.timestamp hs le_rfl]
    simp only [Qualify]
    tauto

/-- A reported `stabilized_start_time` is the onset of a qualifying
stretch, and is minimal among all qualifying onsets. -/
theorem stabilizedStart_spec {hpa : List Sample} (hs : TimeSorted hpa) (s : ℚ)
    (h : stabilizedStart hpa = some s) :
    (∃ pre x rest, hpa = pre ++ x :: rest ∧ s = x.timestamp ∧
        ConstReach x.timestamp x.currentReplicas rest) ∧
    ∀ pre x rest, hpa = pre ++ x :: rest →
      ConstReach x.timestamp x.currentReplicas rest → s ≤ x.timestamp := by
  cases hpa with
  | nil => cases h
  | cons p l =>
    rw [stabilizedStart, stabScan_none_start] at h
    constructor
    · rcases stabScan_some_spec l p p.timestamp s h with ⟨hs0, hcr⟩ | ⟨pre, x, rest, heq, hsx, hcr⟩
      · exact ⟨[], p, l, rfl, hs0, hcr⟩
      · exact ⟨p :: pre, x, rest, by rw [heq, List.cons_append], hsx, hcr⟩
    · obtain ⟨m1, m2⟩ := stabScan_some_le l p p.timestamp s hs le_rfl h
      intro pre x rest heq hcr
      cases pre with
      | nil =>
        obtain ⟨rfl, rfl⟩ : p = x ∧ l = rest := by
          constructor <;> injection heq
        exact m1 hcr
      | cons hd pre' =>
        have heq' : l = pre' ++ x :: rest := by injection heq
        exact m2 pre' x rest heq' hcr

/-! ### Helper lemmas: the overshoot/undershoot loop -/

/-- The value of `prev_time` after the loop has consumed a list. -/
def lastTime (prev : ℚ) : List Sample → ℚ
  | [] => prev
  | x :: rest => lastTime x.timestamp rest

theorem lastTime_append (prev : ℚ) : ∀ (xs : List Sample) (x : Sample),
    lastTime prev (xs ++ [x]) = x.timestamp := by
  intro xs
  induction xs generalizing prev with
  | nil => intro x; rfl
  | cons y ys ih => intro x; exact ih y.timestamp x

theorem overshootLoop_append (xs : List Sample) : ∀ (ys : List Sample) (prev acc : ℚ),
    overshootLoop prev acc (xs ++ ys) =
      overshootLoop (lastTime prev xs) (overshootLoop prev acc xs) ys := by
  induction xs with
  | nil => intro ys prev acc; rfl
  | cons x rest ih =>
    intro ys prev acc
    simp only [List.cons_append, overshootLoop, lastTime]
    exact ih ys x.timestamp _

theorem overshootLoop_le : ∀ (l : List Sample) (prev acc : ℚ),
    TimeSorted l → headTimeLB prev l → acc ≤ overshootLoop prev acc l
  | [], _, _, _, _ => le_rfl
  | x :: rest, prev, acc, hsort, hlb => by
    have hdt : 0 ≤ x.timestamp - prev := by
      simp only [headTimeLB] at hlb; linarith
    have hstep : ∀ acc' , acc ≤ acc' →
        acc ≤ overshootLoop x.timestamp acc' rest := fun acc' hacc =>
      le_trans hacc (overshootLoop_le rest x.timestamp acc' hsort.tail hsort.headTimeLB_of_cons)
    cases hu : x.currentCPUUtilizationPercent with
    | none => simpa only [overshootLoop, hu] using hstep acc le_rfl
    | some u =>
      have : acc ≤ acc + |u - TARGET_UTIL| * (x.timestamp - prev) := by
        have := mul_nonneg (abs_nonneg (u - TARGET_UTIL)) hdt
        linarith
      simpa only [overshootLoop, hu] using hstep _ this

theorem overshootLoop_all_target : ∀ (l : List Sample) (prev acc : ℚ),
    (∀ s ∈ l, s.currentCPUUtilizationPercent = some TARGET_UTIL) →
    overshootLoop prev acc l = acc
  | [], _, _, _ => rfl
  | x :: rest, prev, acc, h => by
    have hx := h x (List.mem_cons_self x rest)
    simp only [overshootLoop, hx, sub_self, abs_zero, zero_mul, add_zero]
    exact overshootLoop_all_target rest x.timestamp acc
      (fun s hs => h s (List.mem_cons_of_mem x hs))

theorem overshootAreaRaw_nonneg (hpa : List Sample) : 0 ≤ overshootAreaRaw hpa := by
  unfold overshootAreaRaw
  cases hsort : sortByTime hpa with
  | nil => exact le_rfl
  | cons x rest =>
    have hts : TimeSorted (x :: rest) := by
      rw [← hsort]; exact timeSorted_sortByTime hpa
    exact overshootLoop_le (x :: rest) x.timestamp 0 hts le_rfl

theorem roundHalfEven_nonneg {q : ℚ} (h : 0 ≤ q) : 0 ≤ roundHalfEven q := by
  have hf : (0 : ℤ) ≤ ⌊q⌋ := Int.floor_nonneg.mpr h
  unfold roundHalfEven
  split
  · exact hf
  · split
    · omega
    · split
      · exact hf
      · omega

theorem roundTo1_nonneg {q : ℚ} (h : 0 ≤ q) : 0 ≤ roundTo1 q := by
  unfold roundTo1
  have h10 : (0 : ℤ) ≤ roundHalfEven (q * 10) := roundHalfEven_nonneg (by positivity)
  have : (0 : ℚ) ≤ (roundHalfEven (q * 10) : ℚ) := by exact_mod_cast h10
  linarith

/-! ### Helper lemmas: CPU parsing aggregates -/

theorem parseAll_eq_none (x : RawCpu) (hx : parse_cpu x = none) :
    ∀ {l : List RawCpu}, x ∈ l → parseAll l = none := by
  intro l hml
  induction l with
  | nil => cases hml
  | cons y rest ih =>
    rcases List.mem_cons.mp hml with rfl | hml'
    · simp [parseAll, hx]
    · cases hy : parse_cpu y <;> simp [parseAll, hy, ih hml']

theorem parseAllPcm_eq_none : ∀ {l : List RawCpu}, RawCpu.malformedMilli ∈ l →
    parseAllPcm l = none := by
  intro l hml
  induction l with
  | nil => cases hml
  | cons x rest ih =>
    rcases List.mem_cons.mp hml with rfl | hml'
    · simp [parseAllPcm, parse_cpu_pcm]
    · cases hx : parse_cpu_pcm x <;> simp [parseAllPcm, hx, ih hml']

theorem parse_cpu_pcm_eq {x : RawCpu} (h : x ≠ RawCpu.malformedMilli) :
    parse_cpu_pcm x = some (parse_cpu x) := by
  cases x <;> simp_all [parse_cpu_pcm, parse_cpu]

theorem parseAllPcm_of_not_raise : ∀ {l : List RawCpu}, RawCpu.malformedMilli ∉ l →
    parseAllPcm l = some (l.map parse_cpu) := by
  intro l hnm
  induction l with
  | nil => rfl
  | cons x rest ih =>
    have hx : x ≠ RawCpu.malformedMilli := by
      intro h
      exact hnm (by rw [← h]; exact List.mem_cons_self x rest)
    have hrest : RawCpu.malformedMilli ∉ rest :=
      fun h => hnm (List.mem_cons_of_mem x h)
    simp [parseAllPcm, parse_cpu_pcm_eq hx, ih hrest]

theorem filterMap_id_map {α β : Type} (f : α → Option β) : ∀ (l : List α),
    (l.map f).filterMap id = l.filterMap f := by
  intro l
  induction l with
  | nil => rfl
  | cons x rest ih => cases hx : f x <;> simp [List.filterMap_cons, hx, ih]

/-- When no entry raises out of the pcm `apply`, the pcm dispersion
statistic is the sample variance of the per-element parses with the
`None`s dropped. -/
theorem pcmPodCpuStdDev_of_not_raise {l : List RawCpu}
    (hnm : RawCpu.malformedMilli ∉ l) :
    pcmPodCpuStdDev l = sampleVar (l.filterMap parse_cpu) := by
  unfold pcmPodCpuStdDev
  rw [parseAllPcm_of_not_raise hnm]
  show sampleVar ((l.map parse_cpu).filterMap id) = sampleVar (l.filterMap parse_cpu)
  rw [filterMap_id_map]

theorem filterMap_filter_isSome {α β : Type} (f : α → Option β) : ∀ (l : List α),
    (l.filter (fun v => (f v).isSome)).filterMap f = l.filterMap f := by
  intro l
  induction l with
  | nil => rfl
  | cons x rest ih =>
    cases hx : f x <;>
      simp [List.filter_cons, List.filterMap_cons, hx, ih]

/-! ## Claims -/

/-- C1, counterexample.  The claim says that with no `high`/`start` phase
event both `time_to_scale_up_s` and `time_to_stabilize_s` are absent.  On a
run whose phase table holds only a `low`/`start` event and whose replica
trace plateaus for 70 s, the code still emits `time_to_stabilize_s`
(anchored at the first sample's timestamp), so the claim is false. -/
theorem C1_counterexample :
    highStarts [⟨0, "low", "start"⟩] = [] ∧
    (compute_derived_metrics_krm
      [⟨0, 2, some 50, none⟩, ⟨10, 2, some 50, none⟩, ⟨70, 2, some 50, none⟩]
      [⟨0, "low", "start"⟩] []).time_to_stabilize_s = some 0 := by
  constructor
  · simp [highStarts, List.filter]
  · norm_num [compute_derived_metrics_krm, timeToStabilize, stabilizedStart, stabScan,
      highStarts, List.filter_cons]
    decide

/-- C1, amended.  For a run with a nonempty hpa table and a nonempty phase
table containing no `high`/`start` event: `time_to_scale_up_s` is absent
and `max_replicas` is still the maximum of the replica samples, but
`time_to_stabilize_s` is not omitted — it is anchored at the run's first
sample timestamp and is present exactly when a qualifying plateau exists. -/
theorem C1_no_high_start_anchor (phases : List PhaseEvent) (pod_cpu : List RawCpu)
    (h0 : Sample) (t : List Sample)
    (hp : phases ≠ []) (hnh : highStarts phases = []) :
    (compute_derived_metrics_krm (h0 :: t) phases pod_cpu).time_to_scale_up_s = none ∧
    (compute_derived_metrics_krm (h0 :: t) phases pod_cpu).max_replicas =
      some (maxReplicas h0 t) ∧
    (compute_derived_metrics_krm (h0 :: t) phases pod_cpu).time_to_stabilize_s =
      (stabilizedStart (h0 :: t)).map (fun s => s - h0.timestamp) ∧
    (TimeSorted (h0 :: t) →
      ((compute_derived_metrics_krm (h0 :: t) phases pod_cpu).time_to_stabilize_s = none ↔
        ¬ Qualify (h0 :: t))) := by
  obtain ⟨q, qs, rfl⟩ := List.exists_cons_of_ne_nil hp
  refine ⟨?_, ?_, ?_, ?_⟩
  · simp [compute_derived_metrics_krm, timeToScaleUp, hnh]
  · simp [compute_derived_metrics_krm]
  · cases hss : stabilizedStart (h0 :: t) <;>
      simp [compute_derived_metrics_krm, timeToStabilize, hss, hnh]
  · intro hs
    cases hss : stabilizedStart (h0 :: t) with
    | none =>
      simp only [compute_derived_metrics_krm, timeToStabilize, hss]
      exact iff_of_true (by simp) ((stabilizedStart_eq_none_iff hs).mp hss)
    | some s =>
      simp only [compute_derived_metrics_krm, timeToStabilize, hss]
      refine iff_of_false (by simp) (not_not_intro ?_)
      by_contra hq
      rw [(stabilizedStart_eq_none_iff hs).mpr hq] at hss
      cases hss

/-- C1, witness for the amended statement. -/
theorem C1_witness :
    (compute_derived_metrics_krm
      [⟨0, 2, some 50, none⟩, ⟨10, 2, some 50, none⟩, ⟨70, 2, some 50, none⟩]
      [⟨0, "low", "start"⟩] []).time_to_scale_up_s = none ∧
    (compute_derived_metrics_krm
      [⟨0, 2, some 50, none⟩, ⟨10, 2, some 50, none⟩, ⟨70, 2, some 50, none⟩]
      [⟨0, "low", "start"⟩] []).max_replicas =
      some (maxReplicas ⟨0, 2, some 50, none⟩ [⟨10, 2, some 50, none⟩, ⟨70, 2, some 50, none⟩]) := by
  have h := C1_no_high_start_anchor [⟨0, "low", "start"⟩] []
    ⟨0, 2, some 50, none⟩ [⟨10, 2, some 50, none⟩, ⟨70, 2, some 50, none⟩]
    (by simp) (by simp [highStarts, List.filter])
  exact ⟨h.1, h.2.1⟩

/-- C2, counterexample.  The claim fails in both scripts: in the
krm-experiment analysis one malformed rawCpu string (here a malformed
plain decimal) makes the whole `pod_cpu_std_dev` null, and in the pcm-exp
analysis a malformed milli-suffixed string (e.g. `"1.5m"`, whose
`int(val[:-1])` sits outside the `try/except`) raises out of the `apply`
and the statistic is omitted entirely — even though the dispersion
statistic over the remaining well-formed samples is perfectly defined
(here: sample variance 5000 over the two well-formed samples). -/
theorem C2_counterexample :
    (compute_derived_metrics_krm [⟨0, 2, some 50, none⟩] [⟨0, "high", "start"⟩]
      [.milli 100, .malformedDec, .milli 200]).pod_cpu_std_dev = none ∧
    (compute_derived_metrics_pcm [⟨0, 2, some 50, none⟩] [⟨0, "high", "start"⟩]
      [.milli 100, .malformedMilli, .milli 200] [] []).pod_cpu_std_dev = none ∧
    sampleVar ([RawCpu.milli 100, .malformedDec, .milli 200].filterMap parse_cpu) =
      some 5000 := by
  refine ⟨?_, ?_, ?_⟩
  · simp [compute_derived_metrics_krm, krmPodCpuStdDev,
      parseAll_eq_none RawCpu.malformedDec rfl
        (by simp : RawCpu.malformedDec ∈ [RawCpu.milli 100, .malformedDec, .milli 200])]
  · simp [compute_derived_metrics_pcm, pcmPodCpuStdDev,
      parseAllPcm_eq_none
        (by simp : RawCpu.malformedMilli ∈ [RawCpu.milli 100, .malformedMilli, .milli 200])]
  · norm_num [parse_cpu, sampleVar, List.filterMap_cons]

/-- C2, amended.  In the pcm-exp analysis, malformed rawCpu strings
without the milli suffix are excluded per-sample and `pod_cpu_std_dev` is
computed over exactly the remaining well-formed samples (dropping those
entries does not change the statistic), but a malformed milli-suffixed
string raises out of the `apply` and omits the statistic entirely; in the
krm-experiment analysis a single malformed string of either kind causes
`pod_cpu_std_dev` to be recorded as null instead of being computed over
the remaining samples. -/
theorem C2_malformed_cpu_handling (l : List RawCpu) (hpa : List Sample)
    (phases : List PhaseEvent) (http_rps : List (Option ℚ))
    (prom : List (String × Option ℚ))
    (hh : hpa ≠ []) (hp : phases ≠ []) :
    (RawCpu.malformedMilli ∉ l →
      (compute_derived_metrics_pcm hpa phases l http_rps prom).pod_cpu_std_dev =
        sampleVar (l.filterMap parse_cpu) ∧
      (compute_derived_metrics_pcm hpa phases l http_rps prom).pod_cpu_std_dev =
        (compute_derived_metrics_pcm hpa phases
          (l.filter (fun v => (parse_cpu v).isSome)) http_rps prom).pod_cpu_std_dev) ∧
    (RawCpu.malformedMilli ∈ l →
      (compute_derived_metrics_pcm hpa phases l http_rps prom).pod_cpu_std_dev = none) ∧
    (∀ x ∈ l, parse_cpu x = none →
      (compute_derived_metrics_krm hpa phases l).pod_cpu_std_dev = none) := by
  obtain ⟨h0, t, rfl⟩ := List.exists_cons_of_ne_nil hh
  obtain ⟨q, qs, rfl⟩ := List.exists_cons_of_ne_nil hp
  have hfield : ∀ l' : List RawCpu,
      (compute_derived_metrics_pcm (h0 :: t) (q :: qs) l' http_rps prom).pod_cpu_std_dev =
        pcmPodCpuStdDev l' := fun l' => by
    simp [compute_derived_metrics_pcm]
  refine ⟨fun hnm => ?_, fun hmem => ?_, fun x hmem hx => ?_⟩
  · have hnm' : RawCpu.malformedMilli ∉ l.filter (fun v => (parse_cpu v).isSome) := by
      intro hmem
      have := (List.mem_filter.mp hmem).2
      simp [parse_cpu] at this
    constructor
    · rw [hfield]
      exact pcmPodCpuStdDev_of_not_raise hnm
    · rw [hfield, hfield, pcmPodCpuStdDev_of_not_raise hnm,
        pcmPodCpuStdDev_of_not_raise hnm', filterMap_filter_isSome]
  · rw [hfield]
    unfold pcmPodCpuStdDev
    rw [parseAllPcm_eq_none hmem]
  · simp [compute_derived_metrics_krm, krmPodCpuStdDev, parseAll_eq_none x hx hmem]

/-- C2, witness for the amended statement. -/
theorem C2_witness :
    (compute_derived_metrics_pcm [⟨0, 2, some 50, none⟩] [⟨0, "high", "start"⟩]
      [.milli 100, .malformedDec, .milli 200] [] []).pod_cpu_std_dev =
      sampleVar ([RawCpu.milli 100, .malformedDec, .milli 200].filterMap parse_cpu) ∧
    (compute_derived_metrics_krm [⟨0, 2, some 50, none⟩] [⟨0, "high", "start"⟩]
      [.milli 100, .malformedDec, .milli 200]).pod_cpu_std_dev = none := by
  have h := C2_malformed_cpu_handling [.milli 100, .malformedDec, .milli 200]
    [⟨0, 2, some 50, none⟩] [⟨0, "high", "start"⟩] [] []
    (by simp) (by simp)
  exact ⟨(h.1 (by simp)).1, h.2.2 RawCpu.malformedDec (by simp) rfl⟩

/-- C3, counterexample.  The normalizer truncates (`int(float(val) * 1000)`)
rather than rounding to the nearest integer: on the decimal `0.0625`
(whose value times 1000 is 62.5, fractional part 0.5, which the claim says
rounds up to 63, and which is exactly representable in binary floating
point so that the Python computation is exact) the code returns 62. -/
theorem C3_counterexample :
    parse_cpu (.dec (1/16)) = some 62 ∧ round ((1/16 : ℚ) * 1000) = 63 := by
  constructor
  · norm_num [parse_cpu, pyTrunc]
  · norm_num [round_eq]

/-- C3, amended.  For a rawCpu string without the milli suffix parsing as a
nonnegative decimal `q`, the normalizer returns `q * 1000` truncated toward
zero (the floor, for these nonnegative quantities) — not rounded to
nearest. -/
theorem C3_decimal_truncates (q : ℚ) (h : 0 ≤ q) :
    parse_cpu (.dec q) = some ⌊q * 1000⌋ := by
  have h1000 : (0 : ℚ) ≤ q * 1000 := by positivity
  simp only [parse_cpu, pyTrunc, if_pos h1000]

/-- C3, witness for the amended statement. -/
theorem C3_witness :
    (0 : ℚ) ≤ 1/16 ∧ parse_cpu (.dec (1/16)) = some ⌊(1/16 : ℚ) * 1000⌋ :=
  ⟨by norm_num, C3_decimal_truncates (1/16) (by norm_num)⟩

/-- C4, counterexample.  A run with a single (numeric) utilization sample
deviating from the target has overshoot/undershoot area 0, because the
first row of the sorted table always contributes with `dt = 0`; the
claim's strict positivity fails. -/
theorem C4_counterexample :
    (compute_derived_metrics_krm [⟨0, 2, some 70, none⟩] [⟨0, "high", "start"⟩]
      []).overshoot_undershoot_area = some 0 ∧ (70 : ℚ) ≠ TARGET_UTIL := by
  constructor
  · norm_num [compute_derived_metrics_krm, overshootAreaRaw, sortByTime, insertByTime,
      overshootLoop, roundTo1, roundHalfEven, TARGET_UTIL]
  · norm_num [TARGET_UTIL]

/-- C4, amended.  The reported area is exactly zero for a run whose
utilization samples all equal the target.  The accumulated (pre-rounding)
area is strictly positive whenever, in the time-sorted table, some sample
deviates from the target and has a strictly positive time step from its
predecessor; a deviation carried only by a zero-`dt` sample (in particular
the first sorted row) contributes nothing, and the reported metric is the
area rounded to one decimal. -/
theorem C4_overshoot_area (hpa : List Sample) (phases : List PhaseEvent)
    (pod_cpu : List RawCpu) (hh : hpa ≠ []) (hp : phases ≠ []) :
    ((∀ s ∈ hpa, s.currentCPUUtilizationPercent = some TARGET_UTIL) →
      (compute_derived_metrics_krm hpa phases pod_cpu).overshoot_undershoot_area = some 0) ∧
    (∀ pre p x rest u, sortByTime hpa = pre ++ p :: x :: rest →
      x.currentCPUUtilizationPercent = some u → u ≠ TARGET_UTIL →
      p.timestamp < x.timestamp → 0 < overshootAreaRaw hpa) ∧
    (compute_derived_metrics_krm hpa phases pod_cpu).overshoot_undershoot_area =
      some (roundTo1 (overshootAreaRaw hpa)) := by
  obtain ⟨h0, t, rfl⟩ := List.exists_cons_of_ne_nil hh
  obtain ⟨q, qs, rfl⟩ := List.exists_cons_of_ne_nil hp
  refine ⟨?_, ?_, ?_⟩
  · intro htarget
    have hzero : overshootAreaRaw (h0 :: t) = 0 := by
      unfold overshootAreaRaw
      cases hsort : sortByTime (h0 :: t) with
      | nil => rfl
      | cons x rest =>
        refine overshootLoop_all_target (x :: rest) x.timestamp 0 ?_
        intro s hsmem
        exact htarget s ((mem_sortByTime _).mp (hsort ▸ hsmem))
    simp only [compute_derived_metrics_krm, hzero]
    norm_num [roundTo1, roundHalfEven]
  · intro pre p x rest u hdecomp hu hune hdt
    obtain ⟨g0, t0, hpre⟩ : ∃ g0 t0, pre ++ [p] = g0 :: t0 := by
      cases pre with
      | nil => exact ⟨p, [], rfl⟩
      | cons a l => exact ⟨a, l ++ [p], rfl⟩
    have hassoc : sortByTime (h0 :: t) = (pre ++ [p]) ++ (x :: rest) := by
      rw [hdecomp]; simp
    have hL : sortByTime (h0 :: t) = g0 :: (t0 ++ x :: rest) := by
      rw [hassoc, hpre]; rfl
    have hts : TimeSorted ((pre ++ [p]) ++ (x :: rest)) := by
      rw [← hassoc]; exact timeSorted_sortByTime _
    have htsL : TimeSorted (g0 :: t0) := by
      rw [← hpre]; exact hts.append_left
    have htsR : TimeSorted (x :: rest) := hts.append_right
    have hA : 0 ≤ overshootLoop g0.timestamp 0 (g0 :: t0) :=
      overshootLoop_le (g0 :: t0) g0.timestamp 0 htsL le_rfl
    have hlast : lastTime g0.timestamp (g0 :: t0) = p.timestamp := by
      rw [← hpre, lastTime_append]
    unfold overshootAreaRaw
    rw [hL]
    show 0 < overshootLoop g0.timestamp 0 ((g0 :: t0) ++ (x :: rest))
    rw [overshootLoop_append, hlast]
    set A := overshootLoop g0.timestamp 0 (g0 :: t0) with hAdef
    have habs : 0 < |u - TARGET_UTIL| := abs_pos.mpr (sub_ne_zero.mpr hune)
    have hpos : 0 < A + |u - TARGET_UTIL| * (x.timestamp - p.timestamp) := by
      have := mul_pos habs (by linarith : (0:ℚ) < x.timestamp - p.timestamp)
      linarith
    calc (0 : ℚ) < A + |u - TARGET_UTIL| * (x.timestamp - p.timestamp) := hpos
    _ ≤ overshootLoop x.timestamp (A + |u - TARGET_UTIL| * (x.timestamp - p.timestamp)) rest :=
        overshootLoop_le rest x.timestamp _ htsR.tail htsR.headTimeLB_of_cons
    _ = overshootLoop p.timestamp A (x :: rest) := by
        simp [overshootLoop, hu]
  · simp [compute_derived_metrics_krm]

/-- C4, witness for the amended statement. -/
theorem C4_witness :
    0 < overshootAreaRaw [⟨0, 2, some 61, none⟩, ⟨1, 2, some 70, none⟩] := by
  have h := C4_overshoot_area [⟨0, 2, some 61, none⟩, ⟨1, 2, some 70, none⟩]
    [⟨0, "high", "start"⟩] [] (by simp) (by simp)
  exact h.2.1 [] ⟨0, 2, some 61, none⟩ ⟨1, 2, some 70, none⟩ [] 70
    (by decide) rfl (by norm_num [TARGET_UTIL]) (by norm_num)

/-- C5.  On a time-sorted replica table: `time_to_stabilize_s` is absent
exactly when no contiguous constant-replica stretch spans 60 s; when the
scan reports an onset it is the start of a qualifying stretch, it is the
earliest such onset, exactly one metric value is emitted; and any
replica-count change resets the accumulated plateau. -/
theorem C5_stabilization_detector (hpa : List Sample) (phases : List PhaseEvent)
    (pod_cpu : List RawCpu) (hs : TimeSorted hpa) (hp : phases ≠ []) (hh : hpa ≠ []) :
    ((compute_derived_metrics_krm hpa phases pod_cpu).time_to_stabilize_s = none ↔
      ¬ Qualify hpa) ∧
    (∀ s, stabilizedStart hpa = some s →
      (∃ pre x rest, hpa = pre ++ x :: rest ∧ s = x.timestamp ∧
          ConstReach x.timestamp x.currentReplicas rest) ∧
      (∀ pre x rest, hpa = pre ++ x :: rest →
        ConstReach x.timestamp x.currentReplicas rest → s ≤ x.timestamp) ∧
      ∃ a, (compute_derived_metrics_krm hpa phases pod_cpu).time_to_stabilize_s = some a) ∧
    (∀ st p c rest, c.currentReplicas ≠ p.currentReplicas →
      stabScan st p (c :: rest) = stabScan none c rest) := by
  obtain ⟨h0, t, rfl⟩ := List.exists_cons_of_ne_nil hh
  obtain ⟨q, qs, rfl⟩ := List.exists_cons_of_ne_nil hp
  refine ⟨?_, ?_, ?_⟩
  · cases hss : stabilizedStart (h0 :: t) with
    | none =>
      simp only [compute_derived_metrics_krm, timeToStabilize, hss]
      exact iff_of_true (by simp) ((stabilizedStart_eq_none_iff hs).mp hss)
    | some s =>
      simp only [compute_derived_metrics_krm, timeToStabilize, hss]
      refine iff_of_false (by simp) (not_not_intro ?_)
      by_contra hq
      rw [(stabilizedStart_eq_none_iff hs).mpr hq] at hss
      cases hss
  · intro s hss
    obtain ⟨hsound, hmin⟩ := stabilizedStart_spec hs s hss
    refine ⟨hsound, hmin, ?_⟩
    simp only [compute_derived_metrics_krm, timeToStabilize, hss]
    exact ⟨_, rfl⟩
  · intro st p c rest hne
    simp [stabScan, hne]

/-- C5, witness. -/
theorem C5_witness :
    ((compute_derived_metrics_krm
      [⟨0, 2, some 55, none⟩, ⟨10, 2, some 58, none⟩, ⟨20, 4, some 70, none⟩,
       ⟨80, 4, some 61, none⟩, ⟨140, 4, some 60, none⟩]
      [⟨0, "high", "start"⟩] []).time_to_stabilize_s = none ↔
      ¬ Qualify
        [⟨0, 2, some 55, none⟩, ⟨10, 2, some 58, none⟩, ⟨20, 4, some 70, none⟩,
         ⟨80, 4, some 61, none⟩, ⟨140, 4, some 60, none⟩]) :=
  (C5_stabilization_detector
    [⟨0, 2, some 55, none⟩, ⟨10, 2, some 58, none⟩, ⟨20, 4, some 70, none⟩,
     ⟨80, 4, some 61, none⟩, ⟨140, 4, some 60, none⟩]
    [⟨0, "high", "start"⟩] [] (by norm_num [TimeSorted]) (by simp) (by simp)).1

/-- C6.  The spec's worked scenario: phase log `[(t=0, high, start)]`,
replica samples `[(0,2), (10,2), (20,4), (80,4), (140,4)]` with
utilizations `[55, 58, 70, 61, 60]` yields `time_to_scale_up_s = 20`,
`time_to_stabilize_s = 20` and `max_replicas = 4`. -/
theorem C6_scenario :
    (compute_derived_metrics_krm
      [⟨0, 2, some 55, none⟩, ⟨10, 2, some 58, none⟩, ⟨20, 4, some 70, none⟩,
       ⟨80, 4, some 61, none⟩, ⟨140, 4, some 60, none⟩]
      [⟨0, "high", "start"⟩] []).time_to_scale_up_s = some 20 ∧
    (compute_derived_metrics_krm
      [⟨0, 2, some 55, none⟩, ⟨10, 2, some 58, none⟩, ⟨20, 4, some 70, none⟩,
       ⟨80, 4, some 61, none⟩, ⟨140, 4, some 60, none⟩]
      [⟨0, "high", "start"⟩] []).time_to_stabilize_s = some 20 ∧
    (compute_derived_metrics_krm
      [⟨0, 2, some 55, none⟩, ⟨10, 2, some 58, none⟩, ⟨20, 4, some 70, none⟩,
       ⟨80, 4, some 61, none⟩, ⟨140, 4, some 60, none⟩]
      [⟨0, "high", "start"⟩] []).max_replicas = some 4 := by
  refine ⟨?_, ?_, ?_⟩
  · norm_num [compute_derived_metrics_krm, timeToScaleUp, highStarts, firstScaled,
      List.filter_cons]
  · norm_num [compute_derived_metrics_krm, timeToStabilize, stabilizedStart, stabScan,
      highStarts, List.filter_cons]
  · norm_num [compute_derived_metrics_krm, maxReplicas, List.foldl]

/-- C7.  Throughput source selection is strict precedence: the dedicated
`total_rps` series is used for `avg_http_rps` whenever it has at least one
numeric value (and only then is `peak_http_rps` populated, with its
maximum); otherwise the HPA custom-metric column is used when it has a
numeric value; otherwise the Prometheus `http_requests_rate` rows are
consulted, and only if those are also absent is the metric omitted. -/
theorem C7_throughput_precedence (hpa : List Sample) (phases : List PhaseEvent)
    (pod_cpu : List RawCpu) (http_rps : List (Option ℚ))
    (prom : List (String × Option ℚ)) (hh : hpa ≠ []) (hp : phases ≠ []) :
    (∀ v vs, http_rps.filterMap id = v :: vs →
      (compute_derived_metrics_pcm hpa phases pod_cpu http_rps prom).avg_http_rps =
        some (some (roundTo2 ((v :: vs).sum / (v :: vs).length))) ∧
      (compute_derived_metrics_pcm hpa phases pod_cpu http_rps prom).peak_http_rps =
        some (roundTo2 (listMax v vs))) ∧
    (http_rps.filterMap id = [] →
      (compute_derived_metrics_pcm hpa phases pod_cpu http_rps prom).peak_http_rps = none ∧
      (∀ w ws, hpa.filterMap (fun s => s.httpRequestsPerSecond) = w :: ws →
        (compute_derived_metrics_pcm hpa phases pod_cpu http_rps prom).avg_http_rps =
          some (some (roundTo2 ((w :: ws).sum / (w :: ws).length)))) ∧
      (hpa.filterMap (fun s => s.httpRequestsPerSecond) = [] →
        ((prom.filter (fun p => p.1 == "http_requests_rate")).map Prod.snd = [] →
          (compute_derived_metrics_pcm hpa phases pod_cpu http_rps prom).avg_http_rps = none) ∧
        (∀ z zs, (prom.filter (fun p => p.1 == "http_requests_rate")).map Prod.snd = z :: zs →
          (compute_derived_metrics_pcm hpa phases pod_cpu http_rps prom).avg_http_rps =
            some ((mean ((z :: zs).filterMap id)).map roundTo2)))) ∧
    ((compute_derived_metrics_pcm hpa phases pod_cpu http_rps prom).peak_http_rps ≠ none ↔
      http_rps.filterMap id ≠ []) := by
  obtain ⟨h0, t, rfl⟩ := List.exists_cons_of_ne_nil hh
  obtain ⟨q, qs, rfl⟩ := List.exists_cons_of_ne_nil hp
  refine ⟨?_, ?_, ?_⟩
  · intro v vs hded
    constructor
    · simp [compute_derived_metrics_pcm, avgHttpRps, hded]
    · simp [compute_derived_metrics_pcm, peakHttpRps, hded]
  · intro hded
    refine ⟨by simp [compute_derived_metrics_pcm, peakHttpRps, hded], ?_, ?_⟩
    · intro w ws hw
      simp [compute_derived_metrics_pcm, avgHttpRps, hded, hw]
    · intro hw
      constructor
      · intro hpr
        simp [compute_derived_metrics_pcm, avgHttpRps, hded, hw, hpr]
      · intro z zs hpr
        simp [compute_derived_metrics_pcm, avgHttpRps, hded, hw, hpr]
  · cases hded : http_rps.filterMap id with
    | nil => simp [compute_derived_metrics_pcm, peakHttpRps, hded]
    | cons v vs => simp [compute_derived_metrics_pcm, peakHttpRps, hded]

/-- C7, witness: the spec's scenario (dedicated `[10, 12, 11]`, HPA column
`[9, 9, 9]`). -/
theorem C7_witness :
    (compute_derived_metrics_pcm
      [⟨0, 1, none, some 9⟩, ⟨1, 1, none, some 9⟩, ⟨2, 1, none, some 9⟩]
      [⟨0, "high", "start"⟩] [] [some 10, some 12, some 11] []).avg_http_rps =
      some (some (roundTo2 ((10 :: [12, 11] : List ℚ).sum / (10 :: [12, 11] : List ℚ).length))) ∧
    (compute_derived_metrics_pcm
      [⟨0, 1, none, some 9⟩, ⟨1, 1, none, some 9⟩, ⟨2, 1, none, some 9⟩]
      [⟨0, "high", "start"⟩] [] [some 10, some 12, some 11] []).peak_http_rps =
      some (roundTo2 (listMax 10 [12, 11])) :=
  (C7_throughput_precedence
    [⟨0, 1, none, some 9⟩, ⟨1, 1, none, some 9⟩, ⟨2, 1, none, some 9⟩]
    [⟨0, "high", "start"⟩] [] [some 10, some 12, some 11] []
    (by simp) (by simp)).1 10 [12, 11] rfl

/-- C8.  `pod_seconds` is the sum of `currentReplicas` over all samples
times the nominal interval constant (hard-coded 5 in the source),
independent of the actual per-sample time deltas, and linear in the
constant: doubling it doubles `pod_seconds`. -/
theorem C8_pod_seconds (hpa : List Sample) (phases : List PhaseEvent)
    (pod_cpu : List RawCpu) (c : ℤ) (hh : hpa ≠ []) (hp : phases ≠ []) :
    (compute_derived_metrics_krm hpa phases pod_cpu).pod_seconds =
      some (podSecondsWith 5 hpa) ∧
    podSecondsWith c hpa = (hpa.map (fun s => s.currentReplicas)).sum * c ∧
    podSecondsWith (2 * c) hpa = 2 * podSecondsWith c hpa ∧
    ∀ hpa' : List Sample,
      hpa'.map (fun s => s.currentReplicas) = hpa.map (fun s => s.currentReplicas) →
      podSecondsWith c hpa' = podSecondsWith c hpa := by
  obtain ⟨h0, t, rfl⟩ := List.exists_cons_of_ne_nil hh
  obtain ⟨q, qs, rfl⟩ := List.exists_cons_of_ne_nil hp
  refine ⟨?_, rfl, ?_, ?_⟩
  · simp [compute_derived_metrics_krm, podSeconds, podSecondsWith]
  · unfold podSecondsWith; ring
  · intro hpa' hmap
    unfold podSecondsWith
    rw [hmap]

/-- C8, witness. -/
theorem C8_witness :
    (compute_derived_metrics_krm [⟨0, 2, none, none⟩, ⟨30, 3, none, none⟩]
      [⟨0, "high", "start"⟩] []).pod_seconds =
      some (podSecondsWith 5 [⟨0, 2, none, none⟩, ⟨30, 3, none, none⟩]) ∧
    podSecondsWith (2 * 7) [⟨0, 2, none, none⟩, ⟨30, 3, none, none⟩] =
      2 * podSecondsWith 7 [⟨0, 2, none, none⟩, ⟨30, 3, none, none⟩] := by
  have h := C8_pod_seconds [⟨0, 2, none, none⟩, ⟨30, 3, none, none⟩]
    [⟨0, "high", "start"⟩] [] 7 (by simp) (by simp)
  exact ⟨h.1, h.2.2.1⟩

/-- C9.  The normalizer yields the same integer for the two encodings of
one physical quantity: `parse_cpu "100m" = parse_cpu "0.1" = 100`. -/
theorem C9_unit_agreement :
    parse_cpu (.milli 100) = parse_cpu (.dec (1/10)) ∧
    parse_cpu (.milli 100) = some 100 := by
  constructor
  · norm_num [parse_cpu, pyTrunc]
  · rfl

/-- C10.  Whenever `overshoot_undershoot_area` is present in the output of
either analysis script, its value is non-negative — for every input table,
including unsorted tables, duplicate timestamps, and non-numeric
utilization entries. -/
theorem C10_area_nonneg (hpa : List Sample) (phases : List PhaseEvent)
    (pod_cpu : List RawCpu) (http_rps : List (Option ℚ))
    (prom : List (String × Option ℚ)) (a : ℚ) :
    ((compute_derived_metrics_krm hpa phases pod_cpu).overshoot_undershoot_area =
      some a → 0 ≤ a) ∧
    ((compute_derived_metrics_pcm hpa phases pod_cpu http_rps prom).overshoot_undershoot_area =
      some a → 0 ≤ a) := by
  have hraw : 0 ≤ roundTo1 (overshootAreaRaw hpa) :=
    roundTo1_nonneg (overshootAreaRaw_nonneg hpa)
  constructor
  · intro h
    match hpa, phases, h with
    | h0 :: t, q :: qs, h =>
      simp only [compute_derived_metrics_krm, Option.some_inj] at h
      exact h ▸ hraw
  · intro h
    match hpa, phases, h with
    | h0 :: t, q :: qs, h =>
      simp only [compute_derived_metrics_pcm, Option.some_inj] at h
      exact h ▸ hraw

/-- C10, witness: a run with a deviating sample has area `10 ≥ 0`. -/
theorem C10_witness : 0 ≤ (10 : ℚ) :=
  (C10_area_nonneg [⟨0, 2, some 70, none⟩, ⟨1, 2, some 70, none⟩]
    [⟨0, "high", "start"⟩] [] [] [] 10).1
    (by norm_num [compute_derived_metrics_krm, overshootAreaRaw, sortByTime, insertByTime,
      overshootLoop, roundTo1, roundHalfEven, TARGET_UTIL])

end Autoscale
